import Mathlib

/-!
Verification of the ddl_json repository: a shallow embedding in Lean 4 of

* `compressObj` (src/compressObj.js) — the recursive tree compactor over
  JSON-like values, and
* `schemaTableColumn` / `parseDDL` (the DDL state-machine parser script) —
  the line-oriented parser producing schema-object records.

JavaScript values flowing through these functions are modelled by the
inductive type `JVal` below.  The JS `undefined` value doubles as the
"absence marker" returned by the compactor; it is the `JVal.undef`
constructor.  JS objects are modelled as association lists in insertion
order (JS objects produced by this program only ever carry distinct,
non-numeric string keys, so insertion order is exactly `Object.keys`
order).  Reference identity of the values returned by `compressObj`
coincides with structural equality for this pure function (it returns the
input itself exactly when nothing was dropped or replaced), so the JS
`!==` checks are modelled by structural disequality.
-/

set_option maxHeartbeats 1000000

/-- JSON-like JavaScript values: strings, numbers, booleans, `null`,
`undefined` (which is also the compactor's absence marker), arrays and
plain objects (association lists in insertion order). -/
inductive JVal where
  | str (s : String)
  | num (n : Int)
  | bool (b : Bool)
  | null
  | undef
  | arr (elems : List JVal)
  | obj (fields : List (String × JVal))
deriving Inhabited

mutual

/-- Boolean structural equality on `JVal` (deriving `DecidableEq` is not
available for this nested inductive, so it is defined by hand). -/
def JVal.beq : JVal → JVal → Bool
  | .str a, .str b => a == b
  | .num a, .num b => a == b
  | .bool a, .bool b => a == b
  | .null, .null => true
  | .undef, .undef => true
  | .arr xs, .arr ys => JVal.beqList xs ys
  | .obj fs, .obj gs => JVal.beqFields fs gs
  | _, _ => false

/-- Pointwise `JVal.beq` on lists. -/
def JVal.beqList : List JVal → List JVal → Bool
  | [], [] => true
  | x :: xs, y :: ys => JVal.beq x y && JVal.beqList xs ys
  | _, _ => false

/-- Pointwise `JVal.beq` on association lists. -/
def JVal.beqFields : List (String × JVal) → List (String × JVal) → Bool
  | [], [] => true
  | (k, v) :: ps, (k2, v2) :: qs => k == k2 && JVal.beq v v2 && JVal.beqFields ps qs
  | _, _ => false

end

mutual

theorem JVal.beq_iff : ∀ a b : JVal, JVal.beq a b = true ↔ a = b
  | .str a, b => by cases b <;> simp [JVal.beq]
  | .num a, b => by cases b <;> simp [JVal.beq]
  | .bool a, b => by cases b <;> simp [JVal.beq]
  | .null, b => by cases b <;> simp [JVal.beq]
  | .undef, b => by cases b <;> simp [JVal.beq]
  | .arr xs, b => by
      cases b <;> simp [JVal.beq]
      exact JVal.beqList_iff xs _
  | .obj fs, b => by
      cases b <;> simp [JVal.beq]
      exact JVal.beqFields_iff fs _

theorem JVal.beqList_iff : ∀ xs ys : List JVal, JVal.beqList xs ys = true ↔ xs = ys
  | [], ys => by cases ys <;> simp [JVal.beqList]
  | x :: xs, ys => by
      cases ys with
      | nil => simp [JVal.beqList]
      | cons y ys =>
        simp [JVal.beqList, JVal.beq_iff x y, JVal.beqList_iff xs ys]

theorem JVal.beqFields_iff : ∀ ps qs : List (String × JVal), JVal.beqFields ps qs = true ↔ ps = qs
  | [], qs => by cases qs <;> simp [JVal.beqFields]
  | (k, v) :: ps, qs => by
      cases qs with
      | nil => simp [JVal.beqFields]
      | cons q qs =>
        obtain ⟨k2, v2⟩ := q
        simp [JVal.beqFields, JVal.beq_iff v v2, JVal.beqFields_iff ps qs]

end

instance : DecidableEq JVal := fun a b =>
  decidable_of_iff (JVal.beq a b = true) (JVal.beq_iff a b)

/-- `typeof v === 'object' && v !== null` — true exactly for arrays and
plain objects (JS `null` has `typeof … === 'object'` but is excluded
explicitly in the source). -/
def isContainer : JVal → Bool
  | .arr _ => true
  | .obj _ => true
  | _ => false

/-- The primitive values `compressObj` drops: `""`, `null`, `undefined`
(the source keeps all other primitives, including `0` and `false`). -/
def isDroppablePrim : JVal → Bool
  | .str s => s = ""
  | .null => true
  | .undef => true
  | _ => false

mutual

/-- src/compressObj.js `compressObj`.  Arrays and objects are compressed
recursively; `JVal.undef` is the JS `undefined` returned for a
fully-emptied container.  The array/object bodies (the `reduce` call and
the `for (const key of _keys)` loop, together with their `modified`
flags) are factored into `compressList` / `compressFields`. -/
def compressObj : JVal → JVal
  | .arr xs =>
    if xs.length = 0 then .undef
    else
      let p := compressList xs
      if p.1.length = xs.length ∧ p.2 = false then .arr xs
      else if p.1.length > 0 then .arr p.1 else .undef
  | .obj fs =>
    if fs.length = 0 then .undef
    else
      let p := compressFields fs
      if p.1.length = fs.length ∧ p.2 = false then .obj fs
      else if p.1.length > 0 then .obj p.1 else .undef
  | v => v

/-- The `input.reduce(...)` loop of the array branch: returns the
compressed element list together with the `modified` flag.  The JS
`reduced !== element` identity test is modelled by structural
disequality (see the header comment). -/
def compressList : List JVal → List JVal × Bool
  | [] => ([], false)
  | x :: rest =>
    let t := compressList rest
    if isContainer x then
      let r := compressObj x
      if r = JVal.undef then (t.1, true)
      else (r :: t.1, if r = x then t.2 else true)
    else if isDroppablePrim x then (t.1, true)
    else (x :: t.1, t.2)

/-- The `for (const key of _keys)` loop of the object branch. -/
def compressFields : List (String × JVal) → List (String × JVal) × Bool
  | [] => ([], false)
  | (k, v) :: rest =>
    let t := compressFields rest
    if isContainer v then
      let r := compressObj v
      if r = JVal.undef then (t.1, true)
      else ((k, r) :: t.1, if r = v then t.2 else true)
    else if isDroppablePrim v then (t.1, true)
    else ((k, v) :: t.1, t.2)

end

mutual

/-- A value free of every "empty" shape at every depth: no `""`, `null`,
`undefined`, empty array or empty object anywhere (a container that is
itself empty counts). -/
def clean : JVal → Bool
  | .str s => decide (s ≠ "")
  | .num _ => true
  | .bool _ => true
  | .null => false
  | .undef => false
  | .arr xs => decide (xs ≠ []) && cleanList xs
  | .obj fs => decide (fs ≠ []) && cleanFields fs

/-- All list elements `clean`. -/
def cleanList : List JVal → Bool
  | [] => true
  | x :: xs => clean x && cleanList xs

/-- All association-list values `clean`. -/
def cleanFields : List (String × JVal) → Bool
  | [] => true
  | p :: ps => clean p.2 && cleanFields ps

end

theorem clean_of_prim (v : JVal) (h1 : isContainer v = false)
    (h2 : isDroppablePrim v = false) : clean v = true := by
  cases v <;> simp_all [isContainer, isDroppablePrim, clean]

theorem droppable_of_not_clean_prim (v : JVal) (h1 : clean v = true) :
    isDroppablePrim v = false := by
  cases v <;> simp_all [isDroppablePrim, clean]

theorem container_ne_undef (v : JVal) (h : isContainer v = true) : v ≠ JVal.undef := by
  cases v <;> simp_all [isContainer]

theorem compress_prim (v : JVal) (h : isContainer v = false) : compressObj v = v := by
  cases v <;> simp_all [isContainer, compressObj]

theorem compressList_cons_kept (x : JVal) (rest : List JVal)
    (hx : isContainer x = true) (hr : compressObj x ≠ JVal.undef) :
    compressList (x :: rest) =
      (compressObj x :: (compressList rest).1,
        if compressObj x = x then (compressList rest).2 else true) := by
  simp [compressList, hx, hr]

theorem compressList_cons_dropped (x : JVal) (rest : List JVal)
    (hx : isContainer x = true) (hr : compressObj x = JVal.undef) :
    compressList (x :: rest) = ((compressList rest).1, true) := by
  simp [compressList, hx, hr]

theorem compressList_cons_prim_kept (x : JVal) (rest : List JVal)
    (hx : isContainer x = false) (hd : isDroppablePrim x = false) :
    compressList (x :: rest) = (x :: (compressList rest).1, (compressList rest).2) := by
  simp [compressList, hx, hd]

theorem compressList_cons_prim_dropped (x : JVal) (rest : List JVal)
    (hx : isContainer x = false) (hd : isDroppablePrim x = true) :
    compressList (x :: rest) = ((compressList rest).1, true) := by
  simp [compressList, hx, hd]

theorem compressFields_cons_kept (k : String) (v : JVal) (rest : List (String × JVal))
    (hx : isContainer v = true) (hr : compressObj v ≠ JVal.undef) :
    compressFields ((k, v) :: rest) =
      ((k, compressObj v) :: (compressFields rest).1,
        if compressObj v = v then (compressFields rest).2 else true) := by
  simp [compressFields, hx, hr]

theorem compressFields_cons_dropped (k : String) (v : JVal) (rest : List (String × JVal))
    (hx : isContainer v = true) (hr : compressObj v = JVal.undef) :
    compressFields ((k, v) :: rest) = ((compressFields rest).1, true) := by
  simp [compressFields, hx, hr]

theorem compressFields_cons_prim_kept (k : String) (v : JVal) (rest : List (String × JVal))
    (hx : isContainer v = false) (hd : isDroppablePrim v = false) :
    compressFields ((k, v) :: rest) = ((k, v) :: (compressFields rest).1, (compressFields rest).2) := by
  simp [compressFields, hx, hd]

theorem compressFields_cons_prim_dropped (k : String) (v : JVal) (rest : List (String × JVal))
    (hx : isContainer v = false) (hd : isDroppablePrim v = true) :
    compressFields ((k, v) :: rest) = ((compressFields rest).1, true) := by
  simp [compressFields, hx, hd]

mutual

/-- Invariant of the compactor: the compressed element list is entirely
`clean`, and if the `modified` flag is still false then the compressed
list is the input list itself. -/
theorem compressList_inv : ∀ xs : List JVal,
    cleanList (compressList xs).1 = true ∧
      ((compressList xs).2 = false → (compressList xs).1 = xs)
  | [] => by simp [compressList, cleanList]
  | x :: rest => by
      have IH := compressList_inv rest
      by_cases hx : isContainer x = true
      · by_cases hr : compressObj x = JVal.undef
        · rw [compressList_cons_dropped x rest hx hr]
          simp [IH.1]
        · have hclean : clean (compressObj x) = true := by
            rcases compressObj_inv x hx with h | h
            · exact absurd h hr
            · exact h
          rw [compressList_cons_kept x rest hx hr]
          refine ⟨by simp [cleanList, hclean, IH.1], ?_⟩
          intro hm
          by_cases heq : compressObj x = x
          · simp only [heq, ite_true] at hm
            simp [heq, IH.2 hm]
          · simp [heq] at hm
      · simp only [Bool.not_eq_true] at hx
        by_cases hd : isDroppablePrim x = true
        · rw [compressList_cons_prim_dropped x rest hx hd]
          simp [IH.1]
        · simp only [Bool.not_eq_true] at hd
          have hclean := clean_of_prim x hx hd
          rw [compressList_cons_prim_kept x rest hx hd]
          refine ⟨by simp [cleanList, hclean, IH.1], ?_⟩
          intro hm
          simp [IH.2 hm]

theorem compressFields_inv : ∀ fs : List (String × JVal),
    cleanFields (compressFields fs).1 = true ∧
      ((compressFields fs).2 = false → (compressFields fs).1 = fs)
  | [] => by simp [compressFields, cleanFields]
  | (k, v) :: rest => by
      have IH := compressFields_inv rest
      by_cases hx : isContainer v = true
      · by_cases hr : compressObj v = JVal.undef
        · rw [compressFields_cons_dropped k v rest hx hr]
          simp [IH.1]
        · have hclean : clean (compressObj v) = true := by
            rcases compressObj_inv v hx with h | h
            · exact absurd h hr
            · exact h
          rw [compressFields_cons_kept k v rest hx hr]
          refine ⟨by simp [cleanFields, hclean, IH.1], ?_⟩
          intro hm
          by_cases heq : compressObj v = v
          · simp only [heq, ite_true] at hm
            simp [heq, IH.2 hm]
          · simp [heq] at hm
      · simp only [Bool.not_eq_true] at hx
        by_cases hd : isDroppablePrim v = true
        · rw [compressFields_cons_prim_dropped k v rest hx hd]
          simp [IH.1]
        · simp only [Bool.not_eq_true] at hd
          have hclean := clean_of_prim v hx hd
          rw [compressFields_cons_prim_kept k v rest hx hd]
          refine ⟨by simp [cleanFields, hclean, IH.1], ?_⟩
          intro hm
          simp [IH.2 hm]

/-- The result of compressing a container is either the absence marker or
an entirely `clean` value. -/
theorem compressObj_inv : ∀ v : JVal, isContainer v = true →
    compressObj v = JVal.undef ∨ clean (compressObj v) = true
  | .arr xs, _ => by
      by_cases hxs : xs.length = 0
      · simp [compressObj, hxs]
      · have IH := compressList_inv xs
        by_cases hcond : (compressList xs).1.length = xs.length ∧ (compressList xs).2 = false
        · right
          have heq := IH.2 hcond.2
          simp only [compressObj, hxs, if_false, hcond, ite_true]
          simp [clean, List.length_eq_zero.not.mp hxs, hcond, heq ▸ IH.1]
        · by_cases hlen : (compressList xs).1.length > 0
          · right
            simp only [compressObj, hxs, if_false, hcond, ite_false, hlen, ite_true]
            have : (compressList xs).1 ≠ [] := by
              intro h
              simp [h] at hlen
            simp [clean, this, IH.1]
          · left
            simp [compressObj, hxs, hcond, hlen]
  | .obj fs, _ => by
      by_cases hfs : fs.length = 0
      · simp [compressObj, hfs]
      · have IH := compressFields_inv fs
        by_cases hcond : (compressFields fs).1.length = fs.length ∧ (compressFields fs).2 = false
        · right
          have heq := IH.2 hcond.2
          simp only [compressObj, hfs, if_false, hcond, ite_true]
          simp [clean, List.length_eq_zero.not.mp hfs, hcond, heq ▸ IH.1]
        · by_cases hlen : (compressFields fs).1.length > 0
          · right
            simp only [compressObj, hfs, if_false, hcond, ite_false, hlen, ite_true]
            have : (compressFields fs).1 ≠ [] := by
              intro h
              simp [h] at hlen
            simp [clean, this, IH.1]
          · left
            simp [compressObj, hfs, hcond, hlen]

end

mutual

/-- Compressing an all-`clean` element list keeps it unchanged, flag down. -/
theorem compress_clean_list : ∀ xs : List JVal, cleanList xs = true →
    compressList xs = (xs, false)
  | [], _ => by simp [compressList]
  | x :: rest, h => by
      have hx : clean x = true := by
        simp [cleanList] at h
        exact h.1
      have hrest : cleanList rest = true := by
        simp [cleanList] at h
        exact h.2
      have IH := compress_clean_list rest hrest
      by_cases hc : isContainer x = true
      · have hxeq : compressObj x = x := compress_clean x hx
        have hne : compressObj x ≠ JVal.undef := by
          rw [hxeq]
          exact container_ne_undef x hc
        rw [compressList_cons_kept x rest hc hne, hxeq, IH]
        simp
      · simp only [Bool.not_eq_true] at hc
        have hd := droppable_of_not_clean_prim x hx
        rw [compressList_cons_prim_kept x rest hc hd, IH]

theorem compress_clean_fields : ∀ fs : List (String × JVal), cleanFields fs = true →
    compressFields fs = (fs, false)
  | [], _ => by simp [compressFields]
  | (k, v) :: rest, h => by
      have hx : clean v = true := by
        simp [cleanFields] at h
        exact h.1
      have hrest : cleanFields rest = true := by
        simp [cleanFields] at h
        exact h.2
      have IH := compress_clean_fields rest hrest
      by_cases hc : isContainer v = true
      · have hxeq : compressObj v = v := compress_clean v hx
        have hne : compressObj v ≠ JVal.undef := by
          rw [hxeq]
          exact container_ne_undef v hc
        rw [compressFields_cons_kept k v rest hc hne, hxeq, IH]
        simp
      · simp only [Bool.not_eq_true] at hc
        have hd := droppable_of_not_clean_prim v hx
        rw [compressFields_cons_prim_kept k v rest hc hd, IH]

/-- Compressing an entirely `clean` value returns it unchanged (the JS
function returns the original reference). -/
theorem compress_clean : ∀ v : JVal, clean v = true → compressObj v = v
  | .str s, _ => by simp [compressObj]
  | .num n, _ => by simp [compressObj]
  | .bool b, _ => by simp [compressObj]
  | .null, h => by simp [clean] at h
  | .undef, h => by simp [clean] at h
  | .arr xs, h => by
      have hne : xs ≠ [] := by
        simp [clean] at h
        exact h.1
      have hcl : cleanList xs = true := by
        simp [clean] at h
        exact h.2
      have hlist := compress_clean_list xs hcl
      have hlen : xs.length ≠ 0 := by simp [hne]
      simp [compressObj, hlen, hlist]
  | .obj fs, h => by
      have hne : fs ≠ [] := by
        simp [clean] at h
        exact h.1
      have hcl : cleanFields fs = true := by
        simp [clean] at h
        exact h.2
      have hfields := compress_clean_fields fs hcl
      have hlen : fs.length ≠ 0 := by simp [hne]
      simp [compressObj, hlen, hfields]

end

/-- C6: For every JSON-like value (containers included), `compressObj` is
idempotent: compressing a second time changes nothing, with the absence
marker `JVal.undef` a fixed point (`compressObj JVal.undef = JVal.undef`). -/
theorem compressObj_idempotent (v : JVal) :
    compressObj (compressObj v) = compressObj v := by
  by_cases hc : isContainer v = true
  · rcases compressObj_inv v hc with h | h
    · rw [h]
      simp [compressObj]
    · exact compress_clean _ h
  · simp only [Bool.not_eq_true] at hc
    rw [compress_prim v hc, compress_prim v hc]

/-- C4 counterexample: the claim quantifies over every JSON-like value,
but for the primitive input `""` the compactor returns `""` itself —
a value that is not the absence marker yet is an empty string, so the
"no empty string at any depth" invariant fails for non-container input. -/
theorem compress_noEmpty_cex :
    compressObj (JVal.str "") ≠ JVal.undef ∧ clean (compressObj (JVal.str "")) = false := by
  constructor
  · simp [compressObj]
  · simp [compressObj, clean]

/-- C4 (amended to container inputs): for every array or object value,
the compacted result — when it is not the absence marker — contains, at
no depth, the absence marker, the empty string, `null`, an empty list or
an empty mapping (`clean` asserts exactly the absence of these shapes). -/
theorem compress_noEmpty (v : JVal) (hc : isContainer v = true)
    (hne : compressObj v ≠ JVal.undef) : clean (compressObj v) = true := by
  rcases compressObj_inv v hc with h | h
  · exact absurd h hne
  · exact h

/-- Witness for `compress_noEmpty` at the concrete input `[1]`. -/
theorem compress_noEmpty_witness :
    clean (compressObj (JVal.arr [JVal.num 1])) = true := by
  apply compress_noEmpty (JVal.arr [JVal.num 1])
  · rfl
  · simp [compressObj, compressList, isContainer, isDroppablePrim]

/-- C5 counterexample: the empty array has no removable element (there is
no element at all, so nothing is dropped and no nested container is
replaced), yet `compressObj` does not return it unchanged — it returns
the absence marker. -/
theorem compress_identity_cex : compressObj (JVal.arr []) ≠ JVal.arr [] := by
  simp [compressObj]

/-- C5 (amended to non-empty containers): for every container that is
non-empty and in which no element or mapping value is removable at any
depth (no `""`/`null`/`undefined` values, every nested container
non-empty — i.e. the container is `clean`), `compressObj` returns the
original input unchanged (the JS source returns the very same reference;
structural identity models reference identity for this pure function). -/
theorem compress_identity (c : JVal) (_hc : isContainer c = true)
    (hclean : clean c = true) : compressObj c = c :=
  compress_clean c hclean

/-- Witness for `compress_identity` at the concrete input `[1, "x"]`. -/
theorem compress_identity_witness :
    compressObj (JVal.arr [JVal.num 1, JVal.str "x"]) = JVal.arr [JVal.num 1, JVal.str "x"] := by
  apply compress_identity (JVal.arr [JVal.num 1, JVal.str "x"])
  · rfl
  · simp [clean, cleanList]

/-- C1 counterexample: a table record whose list/map fields are all empty
but whose `schema`, `type` and `name` are non-empty strings does NOT
compact away: the three string fields survive, so the record (and the
surrounding one-element list) remain; the result is not the absence
marker. -/
theorem compress_emptyTable_cex :
    compressObj (JVal.arr [JVal.obj
      [("schema", JVal.str "s"), ("type", JVal.str "table"), ("name", JVal.str "t"),
       ("columns", JVal.arr []), ("constraints", JVal.arr []),
       ("indexes", JVal.arr []), ("comments", JVal.obj [])]]) ≠ JVal.undef := by
  simp [compressObj, compressList, compressFields, isContainer, isDroppablePrim]

/-- C1 (amended): compressing that list yields the one-element list whose
record keeps exactly the non-empty string fields `schema`, `type`,
`name`; only the empty `columns`/`constraints`/`indexes`/`comments`
fields compact away. -/
theorem compress_emptyTable :
    compressObj (JVal.arr [JVal.obj
      [("schema", JVal.str "s"), ("type", JVal.str "table"), ("name", JVal.str "t"),
       ("columns", JVal.arr []), ("constraints", JVal.arr []),
       ("indexes", JVal.arr []), ("comments", JVal.obj [])]]) =
    JVal.arr [JVal.obj
      [("schema", JVal.str "s"), ("type", JVal.str "table"), ("name", JVal.str "t")]] := by
  simp [compressObj, compressList, compressFields, isContainer, isDroppablePrim]

/-- JS `\s` (ASCII portion; the DDL inputs of this program are ASCII). -/
def wsChar (c : Char) : Bool :=
  c = ' ' || c = '\t' || c = '\n' || c = '\r' || c = '\x0b' || c = '\x0c'

/-- JS `\w`, i.e. `[A-Za-z0-9_]`. -/
def isWordChar (c : Char) : Bool := c.isAlpha || c.isDigit || c = '_'

/-- JS `.` in a regex without the `s` flag: any character except line
terminators. -/
def dotChar (c : Char) : Bool := !(c = '\n') && !(c = '\r')

/-- `String.prototype.trim()` on a character list. -/
def trimList (cs : List Char) : List Char :=
  ((cs.dropWhile wsChar).reverse.dropWhile wsChar).reverse

/-- `String.prototype.trim()`. -/
def jsTrim (s : String) : String := (trimList s.toList).asString

/-- `String.prototype.split(sep)` for a one-character separator (used for
`split("\n")`, `split('.')` and `split(",")` in the source). -/
def splitOnChar (sep : Char) : List Char → List (List Char)
  | [] => [[]]
  | c :: cs =>
    if c = sep then [] :: splitOnChar sep cs
    else
      match splitOnChar sep cs with
      | [] => [[c]]
      | g :: gs => (c :: g) :: gs

/-- `String.prototype.split("--")` (the line-comment delimiter). -/
def splitDashDash : List Char → List (List Char)
  | [] => [[]]
  | '-' :: '-' :: cs => [] :: splitDashDash cs
  | c :: cs =>
    match splitDashDash cs with
    | [] => [[c]]
    | g :: gs => (c :: g) :: gs

/-- `String.prototype.replace(pat, "")` with a string pattern: removes the
first occurrence of `pat` (used for `.replace('DEFAULT','')`). -/
def replaceFirst (pat : List Char) : List Char → List Char
  | [] => []
  | c :: cs =>
    if pat.isPrefixOf (c :: cs) then (c :: cs).drop pat.length
    else c :: replaceFirst pat cs

/-- `String.prototype.startsWith` (structural, on the character lists). -/
def jsStartsWith (s pre : String) : Bool := pre.toList.isPrefixOf s.toList

/-- `.replace(/,$/, "")`: drop a single trailing comma. -/
def stripTrailingComma (s : String) : String :=
  if [','].isSuffixOf s.toList then s.toList.dropLast.asString else s

/-- `\s*`: skip the maximal whitespace run. -/
def skipWs (cs : List Char) : List Char := cs.dropWhile wsChar

/-- Case-insensitive literal (the `/i` flag on every parser regex): match
each pattern character against the input up to `Char.toLower`. -/
def litCI : List Char → List Char → Option (List Char)
  | [], cs => some cs
  | _ :: _, [] => none
  | p :: ps, c :: cs => if c.toLower = p.toLower then litCI ps cs else none

/-- `\s+`: at least one whitespace character, then the maximal run (no
backtracking is ever needed because every following pattern piece starts
with a non-whitespace character). -/
def ws1 : List Char → Option (List Char)
  | [] => none
  | c :: cs => if wsChar c then some (cs.dropWhile wsChar) else none

/-- `(\w+)`: the maximal non-empty word-character run (never backtracked:
it is always followed by a disjoint character class). -/
def word1 (cs : List Char) : Option (List Char × List Char) :=
  match cs.takeWhile isWordChar with
  | [] => none
  | w => some (w, cs.dropWhile isWordChar)

/-- `(\w+\.\w+)`: a dotted pair of word runs, returned as one string. -/
def dotted2 (cs : List Char) : Option (String × List Char) := do
  let (w1, r1) ← word1 cs
  match r1 with
  | '.' :: r2 =>
    let (w2, r3) ← word1 r2
    some ((w1 ++ '.' :: w2).asString, r3)
  | _ => none

/-- `(\w+\.\w+\.\w+)`: a dotted triple of word runs. -/
def dotted3 (cs : List Char) : Option (String × List Char) := do
  let (w1, r1) ← word1 cs
  match r1 with
  | '.' :: r2 => do
    let (w2, r3) ← word1 r2
    match r3 with
    | '.' :: r4 => do
      let (w3, r5) ← word1 r4
      some ((w1 ++ '.' :: w2 ++ '.' :: w3).asString, r5)
    | _ => none
  | _ => none

/-- `schemaRegex = /^\s*CREATE\s+SCHEMA\s+(\w+)/i`; returns group 1. -/
def matchSchema (line : String) : Option String := do
  let r1 ← litCI "CREATE".toList (skipWs line.toList)
  let r2 ← ws1 r1
  let r3 ← litCI "SCHEMA".toList r2
  let r4 ← ws1 r3
  let (w, _) ← word1 r4
  some w.asString

/-- `sequenceRegex = /^\s*CREATE\s+SEQUENCE\s+(\w+\.\w+)/i`; group 1. -/
def matchSequence (line : String) : Option String := do
  let r1 ← litCI "CREATE".toList (skipWs line.toList)
  let r2 ← ws1 r1
  let r3 ← litCI "SEQUENCE".toList r2
  let r4 ← ws1 r3
  let (nm, _) ← dotted2 r4
  some nm

/-- `tableRegex = /^\s*CREATE\s+TABLE\s+(\w+\.\w+)/i`; group 1. -/
def matchTable (line : String) : Option String := do
  let r1 ← litCI "CREATE".toList (skipWs line.toList)
  let r2 ← ws1 r1
  let r3 ← litCI "TABLE".toList r2
  let r4 ← ws1 r3
  let (nm, _) ← dotted2 r4
  some nm

/-- The character class `[\w, ]` of the key-column capture groups. -/
def pkClass (c : Char) : Bool := isWordChar c || c = ',' || c = ' '

/-- `primaryKeyRegex = /^\s*CONSTRAINT\s+(\w+)\s+PRIMARY\s+KEY\s+\(([\w, ]+)\)/i`;
returns (group 1, group 2). -/
def matchPrimaryKey (line : String) : Option (String × String) := do
  let r1 ← litCI "CONSTRAINT".toList (skipWs line.toList)
  let r2 ← ws1 r1
  let (w1, r3) ← word1 r2
  let r4 ← ws1 r3
  let r5 ← litCI "PRIMARY".toList r4
  let r6 ← ws1 r5
  let r7 ← litCI "KEY".toList r6
  let r8 ← ws1 r7
  match r8 with
  | '(' :: r9 =>
    match r9.takeWhile pkClass with
    | [] => none
    | g =>
      match r9.dropWhile pkClass with
      | ')' :: _ => some (w1.asString, g.asString)
      | _ => none
  | _ => none

/-- `foreignKeyRegex = /^\s*CONSTRAINT\s+(\w+)\s+FOREIGN\s+KEY\s*\(([\w, ]+)\)(.*)/i`;
returns (group 1, group 2, group 3 — the trailing rule text, which `.`
cannot extend past a line terminator). -/
def matchForeignKey (line : String) : Option (String × String × String) := do
  let r1 ← litCI "CONSTRAINT".toList (skipWs line.toList)
  let r2 ← ws1 r1
  let (w1, r3) ← word1 r2
  let r4 ← ws1 r3
  let r5 ← litCI "FOREIGN".toList r4
  let r6 ← ws1 r5
  let r7 ← litCI "KEY".toList r6
  match skipWs r7 with
  | '(' :: r9 =>
    match r9.takeWhile pkClass with
    | [] => none
    | g =>
      match r9.dropWhile pkClass with
      | ')' :: r10 => some (w1.asString, g.asString, (r10.takeWhile dotChar).asString)
      | _ => none
  | _ => none

/-- `indexRegex = /^\s*CREATE\s+(UNIQUE )?INDEX\s+(\w+)\s+ON\s+(\w+\.\w+)/i`;
returns (group 1 matched?, group 2, group 3).  The optional `(UNIQUE )?`
backtracks to the empty alternative when `INDEX` does not follow it. -/
def matchIndex (line : String) : Option (Bool × String × String) := do
  let r1 ← litCI "CREATE".toList (skipWs line.toList)
  let r2 ← ws1 r1
  let (unique, r3) ←
    (match (do
        let a ← litCI "UNIQUE ".toList r2
        litCI "INDEX".toList a) with
     | some a => some (true, a)
     | none =>
       match litCI "INDEX".toList r2 with
       | some a => some (false, a)
       | none => none)
  let r4 ← ws1 r3
  let (nm, r5) ← word1 r4
  let r6 ← ws1 r5
  let r7 ← litCI "ON".toList r6
  let r8 ← ws1 r7
  let (_, _) ← dotted2 r8
  some (unique, nm.asString, "")

/-- The capture of greedy `(.+)'`: the text before the LAST quote of the
line-terminator-free segment, requiring at least one character before it. -/
def lastQuoteCapture (seg : List Char) : Option (List Char) :=
  match seg.reverse.dropWhile (fun c => !(c = '\x27')) with
  | '\x27' :: restRev => if restRev = [] then none else some restRev.reverse
  | _ => none

/-- `commentRegex = /^\s*COMMENT\s+ON\s+COLUMN\s+(\w+\.\w+\.\w+)\s+IS\s+'(.+)'/i`;
returns (group 1, group 2). -/
def matchComment (line : String) : Option (String × String) := do
  let r1 ← litCI "COMMENT".toList (skipWs line.toList)
  let r2 ← ws1 r1
  let r3 ← litCI "ON".toList r2
  let r4 ← ws1 r3
  let r5 ← litCI "COLUMN".toList r4
  let r6 ← ws1 r5
  let (full, r7) ← dotted3 r6
  let r8 ← ws1 r7
  let r9 ← litCI "IS".toList r8
  let r10 ← ws1 r9
  match r10 with
  | '\x27' :: r11 => do
    let g2 ← lastQuoteCapture (r11.takeWhile dotChar)
    some (full, g2.asString)
  | _ => none

/-- The character class `[\w\(\),\.\'\:]` of the column-type capture. -/
def colClass (c : Char) : Bool :=
  isWordChar c || c = '(' || c = ')' || c = ',' || c = '.' || c = '\x27' || c = ':'

/-- The literal `,` that terminates `columnRegex`. -/
def commaAfter : List Char → Option (List Char)
  | ',' :: rest => some rest
  | _ => none

/-- One backtracking attempt of `(\s+NOT NULL|\s+NULL)?,` at a given split
point: try the two alternatives of the optional group in order, then the
empty alternative, each followed by the literal comma.  Returns the
group-4 capture (None when the optional group matched empty). -/
def tryCloseAt (cs : List Char) : Option (Option String × List Char) :=
  match (do
      let r1 ← ws1 cs
      let r2 ← litCI "NOT NULL".toList r1
      commaAfter r2) with
  | some rest => some (some ((cs.take (cs.length - rest.length - 1)).asString), rest)
  | none =>
    match (do
        let r1 ← ws1 cs
        let r2 ← litCI "NULL".toList r1
        commaAfter r2) with
    | some rest => some (some ((cs.take (cs.length - rest.length - 1)).asString), rest)
    | none =>
      match commaAfter cs with
      | some rest => some (none, rest)
      | none => none

/-- The lazy `(.*?)` of `columnRegex`: grow the group-3 capture (`acc`)
one character at a time (never across a line terminator), trying
`tryCloseAt` at each length, shortest first. -/
def tryTail (acc : List Char) : List Char → Option (String × Option String)
  | [] => none
  | c :: rest =>
    match tryCloseAt (c :: rest) with
    | some (nn, _) => some (acc.asString, nn)
    | none => if dotChar c then tryTail (acc ++ [c]) rest else none

/-- The greedy group 2 (`[\w\(\),\.\'\:]+`) of `columnRegex`: try the
maximal class run first and give characters back (longest first, as the
backtracking engine does) until the rest of the pattern matches.  The
candidate run is passed reversed. -/
def tryG2 : List Char → List Char → Option (String × String × Option String)
  | [], _ => none
  | c :: g2rev, rest =>
    match tryTail [] rest with
    | some (dflt, nn) => some ((c :: g2rev).reverse.asString, dflt, nn)
    | none => tryG2 g2rev (c :: rest)

/-- `columnRegex = /^\s*(\w+)\s+([\w\(\),\.\'\:]+)(.*?)(\s+NOT NULL|\s+NULL)?,/i`;
returns (group 1 = name, group 2 = type, group 3 = default text,
group 4 = nullability text or None). -/
def matchColumn (line : String) : Option (String × String × String × Option String) := do
  let (w1, r1) ← word1 (skipWs line.toList)
  let r2 ← ws1 r1
  match r2.takeWhile colClass with
  | [] => none
  | g2full => do
    let (ty, dflt, nn) ← tryG2 g2full.reverse (r2.dropWhile colClass)
    some (w1.asString, ty, dflt, nn)

/-- `schemaTableColumn(name, expected)`: split a dotted identifier and
right-align according to the expected shape tag.  Note the source only
special-cases the tags `'S.T'` and `'T.C'`; any other tag (including the
`'S.T.C'` used at the comment call sites) falls through to `return sn`. -/
def schemaTableColumn (name : String) (expected : String := "S.T") : List String :=
  let sn := (splitOnChar '.' name.toList).map List.asString
  let len := sn.length
  if len = 0 then ["", "", ""]
  else if expected = "S.T" ∧ len = 1 then "" :: sn
  else if expected = "S.T" ∧ len = 2 then sn
  else if expected = "T.C" ∧ len = 1 then "" :: "" :: sn
  else if expected = "T.C" ∧ len = 2 then "" :: sn
  else sn

/-- The mutable table object built by the `CREATE TABLE` branch (the JS
object literal keys, in order: schema, type, name, columns, indexes,
constraints, comments, altComment; `type` is the constant "table").
The parser holds it both in `currentTable` and in the name lookup, and
keeps mutating it after it is pushed, so states store these objects in a
heap (`PState.tables`) and refer to them by index. -/
structure PTable where
  schema : String
  name : String
  columns : List JVal
  indexes : List JVal
  constraints : List JVal
  comments : List (String × String)
  altComment : JVal
deriving Inhabited, DecidableEq

/-- The whole mutable state of one `parseDDL` run: the state string, the
active schema name, the current-table reference, the result list (plain
values or references into the table heap), the `tableLookup` object
(own entries plus its current prototype — see `lookupProto`) and the
`console.warn` diagnostics emitted so far.

`lookupProto` models the [[Prototype]] of the `tableLookup` object
literal: `none` is the initial `Object.prototype`; registering a table
named `__proto__` invokes the inherited `__proto__` SETTER, which
replaces the prototype by that table object instead of creating an own
entry — `some i` records that table. -/
structure PState where
  state : String
  schemaName : String
  currentTable : Option Nat
  tables : List PTable
  jsonResult : List (Sum JVal Nat)
  tableLookup : List (String × Nat)
  lookupProto : Option Nat
  warnings : List String
deriving Inhabited, DecidableEq

/-- The state at the start of `parseDDL`. -/
def initState : PState :=
  { state := "NONE", schemaName := "", currentTable := none,
    tables := [], jsonResult := [], tableLookup := [], lookupProto := none,
    warnings := [] }

/-- Own-property assignment `m[k] = v` (for keys whose chain lookup hits
a writable data property or nothing at all — see `commentsSet` for the
`__proto__` accessor): update in place when the own key exists
(insertion order is kept), else append. -/
def objSet {α : Type} (m : List (String × α)) (k : String) (v : α) : List (String × α) :=
  if m.any (fun p => p.1 == k) then m.map (fun p => if p.1 = k then (k, v) else p)
  else m ++ [(k, v)]

/-- OWN-property read on a string-keyed object (the first step of a JS
property read; the prototype chain is handled by `tableLookupGet`). -/
def lookupName {α : Type} : List (String × α) → String → Option α
  | [], _ => none
  | p :: rest, k => if p.1 = k then some p.2 else lookupName rest k

/-- The string-keyed own properties of `Object.prototype` that a `\w+`
identifier can name, apart from the `__proto__` accessor: reading any
of these on a fresh object literal finds an inherited function, which
is truthy. -/
def protoFnKeys : List String :=
  ["constructor", "hasOwnProperty", "isPrototypeOf", "propertyIsEnumerable",
   "toLocaleString", "toString", "valueOf", "__defineGetter__",
   "__defineSetter__", "__lookupGetter__", "__lookupSetter__"]

/-- `__proto__` together with the inherited-function keys: exactly the
table names for which `tableLookup[name]` on an unpolluted lookup hits
the prototype chain instead of yielding `undefined`. -/
def protoRiskKeys : List String := "__proto__" :: protoFnKeys

/-- JS truthiness of a value (note: an EMPTY array or object is truthy). -/
def jsTruthy : JVal → Bool
  | .str s => decide (s ≠ "")
  | .num n => decide (n ≠ 0)
  | .bool b => b
  | .null => false
  | .undef => false
  | .arr _ => true
  | .obj _ => true

/-- JS property assignment `comments[k] = v` for a STRING value `v`: for
the key `__proto__` the inherited accessor's setter runs and silently
discards a primitive assignment (no own property appears and, the value
being a string, the prototype is unchanged); every other key is an
ordinary own-property set. -/
def commentsSet (m : List (String × String)) (k v : String) : List (String × String) :=
  if k = "__proto__" then m else objSet m k v

/-- What the JS property read `tableLookup[tableName]` can produce.
`tableLookup` is a fresh object literal, so the read checks own entries
first and then walks the prototype chain: normally just
`Object.prototype`; after a table named `__proto__` was registered
(`PState.lookupProto`), the chain is that table object followed by
`Object.prototype`, so the table's own fields are also reachable. -/
inductive LookupVal where
  | tbl (i : Nat)
  | protoObj
  | protoFn
  | fieldVal (v : JVal)
  | commentsObj (i : Nat)
  | undef
deriving DecidableEq

/-- `tableLookup[k]` with full prototype-chain semantics.  `.tbl i` is a
real table object: an own entry, or — on a polluted lookup — the value
of the inherited `__proto__` getter, which returns the current
prototype, i.e. the polluting table itself.  `.protoObj` is
`Object.prototype` (the `__proto__` getter on an unpolluted lookup),
`.protoFn` an inherited function, `.fieldVal`/`.commentsObj` a field of
the polluting table found on the chain. -/
def tableLookupGet (st : PState) (k : String) : LookupVal :=
  match lookupName st.tableLookup k with
  | some i => .tbl i
  | none =>
    match st.lookupProto with
    | some i =>
      let t := st.tables.getD i default
      if k = "schema" then .fieldVal (.str t.schema)
      else if k = "type" then .fieldVal (.str "table")
      else if k = "name" then .fieldVal (.str t.name)
      else if k = "columns" then .fieldVal (.arr t.columns)
      else if k = "indexes" then .fieldVal (.arr t.indexes)
      else if k = "constraints" then .fieldVal (.arr t.constraints)
      else if k = "comments" then .commentsObj i
      else if k = "altComment" then .fieldVal t.altComment
      else if k = "__proto__" then .tbl i
      else if protoFnKeys.contains k then .protoFn
      else .undef
    | none =>
      if k = "__proto__" then .protoObj
      else if protoFnKeys.contains k then .protoFn
      else LookupVal.undef

/-- The message of the `TypeError` raised by assigning a property of
`undefined` (what `table.comments[columnName] = …` does whenever the
chain lookup produced a truthy value with no `comments` property). -/
def typeErrorMsg : String := "TypeError: Cannot set properties of undefined"

/-- Index of the most recently created table carrying a given name (the
value `tableLookup` holds for that name, by the registration discipline). -/
def lastNamed : List PTable → String → Option Nat
  | [], _ => none
  | t :: ts, n =>
    match lastNamed ts n with
    | some j => some (j + 1)
    | none => if t.name = n then some 0 else none

/-- The `console.warn` text for an unresolvable comment reference (the
apostrophes of the template literal written as \x27). -/
def unknownTableWarning (tn : String) : String :=
  "Warning: Comment references unknown table \x27" ++ tn ++ "\x27"

/-- Mutate the table heap at index `i`. -/
def updateTable (st : PState) (i : Nat) (f : PTable → PTable) : PState :=
  { st with tables := st.tables.set i (f (st.tables.getD i default)) }

/-- The shared body of the two comment branches, with faithful JS
property semantics.  `const table = tableLookup[tableName]` may hit the
prototype chain; the `if (table)` test is truthiness, and
`table.comments[columnName] = …` then throws a `TypeError` whenever the
truthy `table` has no `comments` property (inherited functions,
`Object.prototype`, strings, arrays).  The script is not strict-mode,
so when `table.comments` is a primitive string the assignment is
instead a silent no-op.  A falsy lookup takes the warning branch.
(`full` always has three dot-separated components — the regex
guarantees it — so the `'S.T.C'` fall-through of `schemaTableColumn`
destructures as (schema, table, column).) -/
def applyComment (st : PState) (full : String) (cm : String) : Except String PState :=
  let stc := schemaTableColumn full "S.T.C"
  let tableName := stc.getD 1 ""
  let columnName := stc.getD 2 ""
  match tableLookupGet st tableName with
  | .tbl i => .ok (updateTable st i (fun t =>
      { t with comments := commentsSet t.comments columnName cm }))
  | .protoObj => .error typeErrorMsg
  | .protoFn => .error typeErrorMsg
  | .commentsObj i =>
    match lookupName (st.tables.getD i default).comments "comments" with
    | some _ => .ok st
    | none => .error typeErrorMsg
  | .fieldVal v =>
    if jsTruthy v then .error typeErrorMsg
    else .ok { st with warnings := st.warnings ++ [unknownTableWarning tableName] }
  | .undef => .ok { st with warnings := st.warnings ++ [unknownTableWarning tableName] }

/-- The primary-key constraint object: `{type, index_name, columns}` with
`columns = pk[2].split(",").map(col => col.trim())`. -/
def pkConstraintObj (indexName : String) (colsRaw : String) : JVal :=
  .obj [("type", .str "primary_key"), ("index_name", .str indexName),
        ("columns", .arr ((splitOnChar ',' colsRaw.toList).map
          (fun c => JVal.str (jsTrim c.asString))))]

/-- The foreign-key constraint object: `{type, index_name, columns, rule}`. -/
def fkConstraintObj (indexName : String) (colsRaw : String) (rule : String) : JVal :=
  .obj [("type", .str "foreign_key"), ("index_name", .str indexName),
        ("columns", .arr ((splitOnChar ',' colsRaw.toList).map
          (fun c => JVal.str (jsTrim c.asString)))),
        ("rule", .str rule)]

/-- The index object: `{name, type: unique ? "unique" : "btree", columns: []}`. -/
def indexObj (unique : Bool) (nm : String) : JVal :=
  .obj [("name", .str nm), ("type", .str (if unique then "unique" else "btree")),
        ("columns", .arr [])]

/-- `x || ''` is the identity on strings, so `(notNull || _dflt || '')`
is: `notNull` when it matched non-empty text, else `_dflt`. -/
def jsOrStr (a : Option String) (b : String) : String :=
  match a with
  | some s => if s = "" then b else s
  | none => b

/-- One attempted match of `/NOT\s+NULL/` (NO `/i` flag — unlike the line
regexes this check is case-sensitive) at the head of the input. -/
def notNullHere : List Char → Bool
  | 'N' :: 'O' :: 'T' :: c :: r =>
    wsChar c && "NULL".toList.isPrefixOf ((c :: r).dropWhile wsChar)
  | _ => false

/-- `.match(/NOT\s+NULL/)` succeeds somewhere in the input. -/
def containsNotNull : List Char → Bool
  | [] => false
  | c :: rest => notNullHere (c :: rest) || containsNotNull rest

/-- `!!(s).trim().match(/NOT\s+NULL/)`. -/
def hasNotNull (s : String) : Bool := containsNotNull (jsTrim s).toList

/-- The column object pushed for a matched column line:
`{name, type (trailing comma stripped), constraints, defaultVal, altComment}`,
with NOT NULL decided on `(notNull || _dflt || '')` and the default
salvaged from `_dflt` only when the column is nullable. -/
def mkColumnObj (alt : JVal) (name ty dflt : String) (notNull : Option String) : JVal :=
  let isNotNull := hasNotNull (jsOrStr notNull dflt)
  .obj [("name", .str name),
        ("type", .str (stripTrailingComma ty)),
        ("constraints", if isNotNull then .arr [.str "NOT NULL"] else .arr []),
        ("defaultVal", if isNotNull then .undef
                       else .str (jsTrim (replaceFirst "DEFAULT".toList dflt.toList).asString)),
        ("altComment", alt)]

/-- The `case states.NONE` branch of the per-line switch.  The
registration `tableLookup[currentTable.name] = currentTable` is an
ordinary own-property set, EXCEPT for a table named `__proto__`: there
the inherited accessor's setter runs and, the assigned value being an
object, replaces the prototype of `tableLookup` by the new table
(recorded in `lookupProto`) without creating an own entry. -/
def handleNone (st : PState) (line : String) (alt : JVal) : Except String PState :=
  match matchSchema line with
  | some nm => .ok { st with schemaName := nm }
  | none =>
    match matchSequence line with
    | some seqName =>
      .ok { st with jsonResult := st.jsonResult ++ [Sum.inl (JVal.obj
          [("schema", .str st.schemaName), ("type", .str "sequence"),
           ("name", .str ((schemaTableColumn seqName "S.T").getD 1 "")),
           ("altComment", alt)])] }
    | none =>
      match matchTable line with
      | some fullTableName =>
        if (schemaTableColumn fullTableName "S.T").getD 1 "" = "__proto__" then
          .ok { st with tables := st.tables ++
                          [{ schema := st.schemaName,
                             name := (schemaTableColumn fullTableName "S.T").getD 1 "",
                             columns := [], indexes := [], constraints := [],
                             comments := [], altComment := alt }],
                        lookupProto := some st.tables.length,
                        currentTable := some st.tables.length,
                        state := "TABLE" }
        else
          .ok { st with tables := st.tables ++
                          [{ schema := st.schemaName,
                             name := (schemaTableColumn fullTableName "S.T").getD 1 "",
                             columns := [], indexes := [], constraints := [],
                             comments := [], altComment := alt }],
                        tableLookup := objSet st.tableLookup
                          ((schemaTableColumn fullTableName "S.T").getD 1 "")
                          st.tables.length,
                        currentTable := some st.tables.length,
                        state := "TABLE" }
      | none =>
        match matchComment line with
        | some (full, cm) => applyComment st full (jsTrim cm)
        | none => .ok st

/-- The `case states.TABLE` branch.  Every sub-branch that dereferences
`currentTable` would raise a `TypeError` were it null (which the state
invariant rules out); the comment branch and the ignore branch do not
touch it.  A close line with a null current table pushes `null` itself. -/
def handleTable (st : PState) (line : String) (alt : JVal) : Except String PState :=
  match matchPrimaryKey line with
  | some (nm, cols) =>
    match st.currentTable with
    | some i => .ok (updateTable st i (fun t =>
        { t with constraints := t.constraints ++ [pkConstraintObj nm cols] }))
    | none => .error "TypeError: currentTable is null"
  | none =>
    match matchForeignKey line with
    | some (nm, cols, rule) =>
      match st.currentTable with
      | some i => .ok (updateTable st i (fun t =>
          { t with constraints := t.constraints ++ [fkConstraintObj nm cols rule] }))
      | none => .error "TypeError: currentTable is null"
    | none =>
      match matchIndex line with
      | some (unique, nm, _) =>
        match st.currentTable with
        | some i => .ok (updateTable st i (fun t =>
            { t with indexes := t.indexes ++ [indexObj unique nm] }))
        | none => .error "TypeError: currentTable is null"
      | none =>
        match matchComment line with
        | some (full, cm) => applyComment st full cm
        | none =>
          if jsStartsWith (jsTrim line) ");" then
            .ok { st with
                  jsonResult := st.jsonResult ++
                    [match st.currentTable with
                     | some i => Sum.inr i
                     | none => Sum.inl JVal.null],
                  currentTable := none, state := "NONE" }
          else
            match matchColumn line with
            | some (nm, ty, dflt, nn) =>
              match st.currentTable with
              | some i => .ok (updateTable st i (fun t =>
                  { t with columns := t.columns ++ [mkColumnObj alt nm ty dflt nn] }))
              | none => .error "TypeError: currentTable is null"
            | none => .ok st

/-- Dispatch one already-split line on the state string.  A state outside
{NONE, TABLE} hits the `default: throw new Error(...)` branch. -/
def processMain (st : PState) (line : String) (alt : JVal) : Except String PState :=
  if st.state = "NONE" then handleNone st line alt
  else if st.state = "TABLE" then handleTable st line alt
  else .error ("Unknown state: " ++ st.state)

/-- One iteration of the `ddlLines.forEach` callback: split the raw line
on `--`, trim every part; the first part is the statement text, the
second (when present) the trailing comment; skip blank main parts. -/
def processLine (st : PState) (rawLine : String) : Except String PState :=
  match (splitDashDash rawLine.toList).map (fun p => jsTrim p.asString) with
  | [] => .ok st
  | mainPart :: restParts =>
    let altComment : JVal :=
      match restParts with
      | a :: _ => .str a
      | [] => .undef
    if mainPart = "" then .ok st
    else processMain st mainPart altComment

/-- The fold of `parseDDL` over `ddlContent.split("\n")`, stopping before
the final compression: returns the final parser state. -/
def parseDDLstate (ddlContent : String) : Except String PState :=
  ((splitOnChar '\n' ddlContent.toList).map List.asString).foldlM processLine initState

theorem splitOnChar_no_sep (sep : Char) : ∀ a : List Char, sep ∉ a →
    splitOnChar sep a = [a]
  | [], _ => rfl
  | c :: cs, h => by
      have hc : ¬(c = sep) := fun hcc => h (hcc ▸ List.mem_cons_self c cs)
      have hrest : sep ∉ cs := fun hm => h (List.mem_cons_of_mem c hm)
      simp [splitOnChar, hc, splitOnChar_no_sep sep cs hrest]

theorem splitOnChar_append (sep : Char) : ∀ a b : List Char, sep ∉ a →
    splitOnChar sep (a ++ sep :: b) = a :: splitOnChar sep b
  | [], b, _ => by simp [splitOnChar]
  | c :: cs, b, h => by
      have hc : ¬(c = sep) := fun hcc => h (hcc ▸ List.mem_cons_self c cs)
      have hrest : sep ∉ cs := fun hm => h (List.mem_cons_of_mem c hm)
      have IH := splitOnChar_append sep cs b hrest
      show splitOnChar sep (c :: (cs ++ sep :: b)) = (c :: cs) :: splitOnChar sep b
      simp only [splitOnChar, hc, ite_false, List.append_eq, IH]

/-- C2 counterexample: a two-part dotted name passed with the expected
shape tag `"S.T.C"` is NOT right-aligned into (empty schema, table,
column): the source special-cases only the tags `'S.T'` and `'T.C'`, so
`'S.T.C'` falls through to `return sn` and the two split parts come back
as-is, in the schema and table positions. -/
theorem schemaTableColumn_cex :
    schemaTableColumn "a.b" "S.T.C" = ["a", "b"] ∧
      schemaTableColumn "a.b" "S.T.C" ≠ ["", "a", "b"] := by
  constructor
  · rfl
  · intro h
    simp [schemaTableColumn, splitOnChar] at h

/-- C2 (amended): for dot-free components `x`, `y`, `z`:
a one-part name with tag `"S.T"` yields `["", x]` (empty schema, the name
as table — the returned array has only these two slots, no empty column
entry); a two-part name with tag `"S.T"` yields the parts as
(schema, table); right-alignment of short names into the column position
happens for the tag `"T.C"` (`["", "", x]` and `["", x, y]`); a two-part
name with the unrecognized tag `"S.T.C"` is returned as split, `[x, y]`;
and any three-part name yields (schema, table, column) regardless of the
expected shape tag. -/
theorem schemaTableColumn_spec (x y z : String)
    (hx : '.' ∉ x.toList) (hy : '.' ∉ y.toList) (hz : '.' ∉ z.toList) :
    schemaTableColumn x "S.T" = ["", x] ∧
    schemaTableColumn (x ++ "." ++ y) "S.T" = [x, y] ∧
    schemaTableColumn x "T.C" = ["", "", x] ∧
    schemaTableColumn (x ++ "." ++ y) "T.C" = ["", x, y] ∧
    schemaTableColumn (x ++ "." ++ y) "S.T.C" = [x, y] ∧
    (∀ tag : String, schemaTableColumn (x ++ "." ++ y ++ "." ++ z) tag = [x, y, z]) := by
  have has : ∀ s : String, List.asString s.data = s := fun s => String.asString_toList s
  have happ : ∀ a b : String, (a ++ b).data = a.data ++ b.data :=
    fun a b => String.data_append a b
  have h1 : splitOnChar '.' x.data = [x.data] := splitOnChar_no_sep '.' x.data hx
  have h2 : (x ++ "." ++ y).data = x.data ++ '.' :: y.data := by
    rw [happ, happ]
    simp [show ("." : String).data = ['.'] from rfl]
  have h2' : splitOnChar '.' (x.data ++ '.' :: y.data) = [x.data, y.data] := by
    rw [splitOnChar_append '.' x.data y.data hx,
        splitOnChar_no_sep '.' y.data hy]
  have h3 : (x ++ "." ++ y ++ "." ++ z).data =
      x.data ++ '.' :: (y.data ++ '.' :: z.data) := by
    rw [happ, happ, h2]
    simp [show ("." : String).data = ['.'] from rfl]
  have h3' : splitOnChar '.' (x.data ++ '.' :: (y.data ++ '.' :: z.data)) =
      [x.data, y.data, z.data] := by
    rw [splitOnChar_append '.' x.data _ hx,
        splitOnChar_append '.' y.data z.data hy,
        splitOnChar_no_sep '.' z.data hz]
  refine ⟨?_, ?_, ?_, ?_, ?_, ?_⟩
  · simp [schemaTableColumn, h1, has]
  · simp [schemaTableColumn, h2, h2', has]
  · simp [schemaTableColumn, h1, has]
  · simp [schemaTableColumn, h2, h2', has]
  · simp [schemaTableColumn, h2, h2', has]
  · intro tag
    simp [schemaTableColumn, h3, h3', has]

/-- Witness for `schemaTableColumn_spec` at (public, users, id). -/
theorem schemaTableColumn_spec_witness :
    schemaTableColumn "public" "S.T" = ["", "public"] ∧
    schemaTableColumn "public.users" "S.T" = ["public", "users"] ∧
    schemaTableColumn "public" "T.C" = ["", "", "public"] ∧
    schemaTableColumn "public.users" "T.C" = ["", "public", "users"] ∧
    schemaTableColumn "public.users" "S.T.C" = ["public", "users"] ∧
    (∀ tag : String, schemaTableColumn "public.users.id" tag = ["public", "users", "id"]) :=
  schemaTableColumn_spec "public" "users" "id"
    (by decide) (by decide) (by decide)

/-- Field read on an object value. -/
def fieldOf : JVal → String → Option JVal
  | .obj fs, k => lookupName fs k
  | _, _ => none


/-- C7: in the TABLE state, the line `CONSTRAINT t_pkey PRIMARY KEY (a, b)`
appends to the current table's constraints the record with type
"primary_key", index name "t_pkey" and columns ["a", "b"] (the spec's
`indexName` field is the JS object key `index_name`). -/
theorem primaryKey_line (st : PState) (i : Nat)
    (hst : st.state = "TABLE") (hcur : st.currentTable = some i) :
    processLine st "CONSTRAINT t_pkey PRIMARY KEY (a, b)" =
      .ok (updateTable st i (fun t => { t with constraints := t.constraints ++
        [JVal.obj [("type", JVal.str "primary_key"), ("index_name", JVal.str "t_pkey"),
                   ("columns", JVal.arr [JVal.str "a", JVal.str "b"])]] })) := by
  have hpk : matchPrimaryKey "CONSTRAINT t_pkey PRIMARY KEY (a, b)" =
      some ("t_pkey", "a, b") := rfl
  have hobj : pkConstraintObj "t_pkey" "a, b" =
      JVal.obj [("type", JVal.str "primary_key"), ("index_name", JVal.str "t_pkey"),
                ("columns", JVal.arr [JVal.str "a", JVal.str "b"])] := rfl
  have hred : processLine st "CONSTRAINT t_pkey PRIMARY KEY (a, b)" =
      processMain st "CONSTRAINT t_pkey PRIMARY KEY (a, b)" JVal.undef := rfl
  rw [hred]
  simp [processMain, hst, handleTable, hpk, hcur, hobj]

/-- Witness for `primaryKey_line` at a concrete one-table TABLE state. -/
theorem primaryKey_line_witness :
    processLine
      { state := "TABLE", schemaName := "s", currentTable := some 0,
        tables := [{ schema := "s", name := "t", columns := [], indexes := [],
                     constraints := [], comments := [], altComment := JVal.undef }],
        jsonResult := [], tableLookup := [("t", 0)], lookupProto := none,
        warnings := [] }
      "CONSTRAINT t_pkey PRIMARY KEY (a, b)" =
      .ok (updateTable
        { state := "TABLE", schemaName := "s", currentTable := some 0,
          tables := [{ schema := "s", name := "t", columns := [], indexes := [],
                       constraints := [], comments := [], altComment := JVal.undef }],
          jsonResult := [], tableLookup := [("t", 0)], lookupProto := none,
          warnings := [] }
        0 (fun t => { t with constraints := t.constraints ++
          [JVal.obj [("type", JVal.str "primary_key"), ("index_name", JVal.str "t_pkey"),
                     ("columns", JVal.arr [JVal.str "a", JVal.str "b"])]] })) :=
  primaryKey_line _ 0 rfl rfl

/-- C8: for every matched column line (captures: name, type, default
text `_dflt`, nullability text `notNull`), the built column object
records "NOT NULL" exactly when `/NOT\s+NULL/` (case-sensitively)
occurs in the combined capture `(notNull || _dflt || '')`, and only when
it does not is the default value salvaged from `_dflt` with the first
`DEFAULT` removed and the result trimmed; in particular a TABLE-state
step on `amount numeric(10,2) DEFAULT 0,` appends the column
`{name: "amount", type: "numeric(10,2)", constraints: [], defaultVal: "0"}`. -/
theorem column_notNull_default (alt : JVal) (name ty dflt : String) (nn : Option String) :
    (fieldOf (mkColumnObj alt name ty dflt nn) "constraints" =
        some (JVal.arr [JVal.str "NOT NULL"]) ↔ hasNotNull (jsOrStr nn dflt) = true) ∧
    (hasNotNull (jsOrStr nn dflt) = false →
      fieldOf (mkColumnObj alt name ty dflt nn) "defaultVal" =
        some (JVal.str (jsTrim (replaceFirst "DEFAULT".toList dflt.toList).asString))) ∧
    processLine
      { state := "TABLE", schemaName := "s", currentTable := some 0,
        tables := [{ schema := "s", name := "t", columns := [], indexes := [],
                     constraints := [], comments := [], altComment := JVal.undef }],
        jsonResult := [], tableLookup := [("t", 0)], lookupProto := none,
        warnings := [] }
      "    amount numeric(10,2) DEFAULT 0," =
      .ok { state := "TABLE", schemaName := "s", currentTable := some 0,
            tables := [{ schema := "s", name := "t",
                         columns := [JVal.obj
                           [("name", JVal.str "amount"),
                            ("type", JVal.str "numeric(10,2)"),
                            ("constraints", JVal.arr []),
                            ("defaultVal", JVal.str "0"),
                            ("altComment", JVal.undef)]],
                         indexes := [], constraints := [], comments := [],
                         altComment := JVal.undef }],
            jsonResult := [], tableLookup := [("t", 0)], lookupProto := none,
            warnings := [] } := by
  refine ⟨?_, ?_, ?_⟩
  · by_cases h : hasNotNull (jsOrStr nn dflt) = true
    · simp [mkColumnObj, fieldOf, lookupName, h]
    · simp only [Bool.not_eq_true] at h
      simp [mkColumnObj, fieldOf, lookupName, h]
  · intro h
    simp [mkColumnObj, fieldOf, lookupName, h]
  · rfl

/-- Witness for `column_notNull_default`: the nullable branch applied at
the captures of `amount numeric(10,2) DEFAULT 0,`. -/
theorem column_notNull_default_witness :
    fieldOf (mkColumnObj JVal.undef "amount" "numeric(10,2)" " DEFAULT 0" none) "defaultVal" =
      some (JVal.str "0") :=
  (column_notNull_default JVal.undef "amount" "numeric(10,2)" " DEFAULT 0" none).2.1 rfl

theorem lookupName_map_ne {α : Type} (k n : String) (v : α) (hn : ¬ k = n) :
    ∀ m : List (String × α),
      lookupName (m.map (fun p => if p.1 = k then (k, v) else p)) n = lookupName m n
  | [] => rfl
  | p :: ps => by
      by_cases hp : p.1 = k
      · simp only [List.map_cons, hp, if_pos rfl, lookupName, lookupName_map_ne k n v hn ps]
        rw [if_neg hn, if_neg (hp ▸ hn)]
      · simp only [List.map_cons, if_neg hp, lookupName, lookupName_map_ne k n v hn ps]

theorem lookupName_map_eq {α : Type} (k : String) (v : α) :
    ∀ m : List (String × α), m.any (fun p => p.1 == k) = true →
      lookupName (m.map (fun p => if p.1 = k then (k, v) else p)) k = some v
  | p :: ps, h => by
      by_cases hp : p.1 = k
      · simp [lookupName, hp]
      · have h' : ps.any (fun p => p.1 == k) = true := by
          cases hh : (p.1 == k) with
          | true => exact absurd (by simpa using hh) hp
          | false => simpa [List.any_cons, hh] using h
        simp only [List.map_cons, if_neg hp, lookupName, hp, if_false,
          lookupName_map_eq k v ps h', ite_false]

theorem lookupName_append_new {α : Type} (k n : String) (v : α) :
    ∀ m : List (String × α), m.any (fun p => p.1 == k) = false →
      lookupName (m ++ [(k, v)]) n = if k = n then some v else lookupName m n
  | [], _ => by simp [lookupName]
  | p :: ps, h => by
      have hpk : ¬ p.1 = k := by
        simp only [List.any_cons, beq_iff_eq, Bool.or_eq_false_iff] at h
        simpa using h.1
      have h' : ps.any (fun p => p.1 == k) = false := by
        simp only [List.any_cons, Bool.or_eq_false_iff] at h
        exact h.2
      by_cases hpn : p.1 = n
      · have hkn : ¬ k = n := fun hk => hpk (hk ▸ hpn ▸ rfl)
        simp [lookupName, hpn, hkn]
      · simp [lookupName, hpn, lookupName_append_new k n v ps h']

/-- `objSet` realizes JS property assignment for `lookupName`. -/
theorem lookupName_objSet {α : Type} (m : List (String × α)) (k n : String) (v : α) :
    lookupName (objSet m k v) n = if k = n then some v else lookupName m n := by
  by_cases h : m.any (fun p => p.1 == k) = true
  · by_cases hkn : k = n
    · subst hkn
      simp [objSet, h, lookupName_map_eq k v m h]
    · simp [objSet, h, lookupName_map_ne k n v hkn m, hkn]
  · simp only [Bool.not_eq_true] at h
    simp [objSet, h, lookupName_append_new k n v m h]

theorem lastNamed_lt : ∀ (ts : List PTable) (n : String) (j : Nat),
    lastNamed ts n = some j → j < ts.length
  | [], n, j, h => by simp [lastNamed] at h
  | t :: ts, n, j, h => by
      simp only [lastNamed] at h
      cases hrec : lastNamed ts n with
      | some j' =>
        rw [hrec] at h
        cases h
        exact Nat.succ_lt_succ (lastNamed_lt ts n j' hrec)
      | none =>
        rw [hrec] at h
        by_cases hn : t.name = n
        · rw [if_pos hn] at h
          cases h
          exact Nat.succ_pos _
        · rw [if_neg hn] at h
          cases h

theorem lastNamed_append (t : PTable) (n : String) :
    ∀ ts : List PTable, lastNamed (ts ++ [t]) n =
      if t.name = n then some ts.length else lastNamed ts n
  | [] => by
      simp only [List.nil_append, lastNamed, List.length_nil]
  | t' :: ts => by
      have IH := lastNamed_append t n ts
      by_cases hn : t.name = n
      · simp [List.cons_append, lastNamed, IH, hn]
      · simp [List.cons_append, lastNamed, IH, hn]

theorem lastNamed_set_preserve (f : PTable → PTable) (hf : ∀ t, (f t).name = t.name)
    (n : String) : ∀ (ts : List PTable) (i : Nat),
      lastNamed (ts.set i (f (ts.getD i default))) n = lastNamed ts n
  | [], i => by simp
  | t :: ts, 0 => by
      simp only [List.getD_cons_zero, List.set_cons_zero, lastNamed, hf t]
  | t :: ts, i + 1 => by
      simp only [List.getD_cons_succ, List.set_cons_succ, lastNamed,
        lastNamed_set_preserve f hf n ts i]

/-- The run invariant of the parser state: (1) the state string is NONE
or TABLE (so the fatal default branch is unreachable); (2) in TABLE
state the current table is a valid heap reference not yet pushed to the
result; (3) result references point into the heap; (4) for every name
other than `__proto__`, the own entries of `tableLookup` map it to the
most recently created table of that name; (5) `tableLookup` never
acquires an OWN `__proto__` entry — the inherited setter intercepts
that assignment. -/
def StInv (st : PState) : Prop :=
  (st.state = "NONE" ∨ st.state = "TABLE") ∧
  (st.state = "TABLE" → ∃ i, st.currentTable = some i ∧ i < st.tables.length ∧
    Sum.inr i ∉ st.jsonResult) ∧
  (∀ j : Nat, Sum.inr j ∈ st.jsonResult → j < st.tables.length) ∧
  (∀ n : String, ¬ n = "__proto__" →
    lookupName st.tableLookup n = lastNamed st.tables n) ∧
  lookupName st.tableLookup "__proto__" = none

theorem StInv_init : StInv initState := by
  refine ⟨Or.inl rfl, ?_, ?_, ?_, rfl⟩
  · intro h
    simp [initState] at h
  · intro j hj
    simp [initState] at hj
  · intro n _
    rfl

theorem StInv_updateTable (st : PState) (i : Nat) (f : PTable → PTable)
    (hf : ∀ t, (f t).name = t.name) (h : StInv st) : StInv (updateTable st i f) := by
  obtain ⟨h1, h2, h3, h4, h5⟩ := h
  refine ⟨h1, ?_, ?_, ?_, h5⟩
  · intro ht
    obtain ⟨j, hc, hlt, hnotin⟩ := h2 ht
    refine ⟨j, hc, ?_, hnotin⟩
    show j < (st.tables.set i (f (st.tables.getD i default))).length
    rw [List.length_set]
    exact hlt
  · intro j hj
    show j < (st.tables.set i (f (st.tables.getD i default))).length
    rw [List.length_set]
    exact h3 j hj
  · intro n hn
    show lookupName st.tableLookup n =
      lastNamed (st.tables.set i (f (st.tables.getD i default))) n
    rw [lastNamed_set_preserve f hf n st.tables i]
    exact h4 n hn

theorem applyComment_eq_tbl (st : PState) (full cm : String) (i : Nat)
    (hlk : tableLookupGet st ((schemaTableColumn full "S.T.C").getD 1 "") = .tbl i) :
    applyComment st full cm = .ok (updateTable st i (fun t =>
      { t with comments := commentsSet t.comments ((schemaTableColumn full "S.T.C").getD 2 "") cm })) := by
  simp only [applyComment, hlk]

theorem applyComment_eq_undef (st : PState) (full cm : String)
    (hlk : tableLookupGet st ((schemaTableColumn full "S.T.C").getD 1 "") = .undef) :
    applyComment st full cm = .ok { st with warnings := st.warnings ++
      [unknownTableWarning ((schemaTableColumn full "S.T.C").getD 1 "")] } := by
  simp only [applyComment, hlk]

theorem applyComment_eq_protoObj (st : PState) (full cm : String)
    (hlk : tableLookupGet st ((schemaTableColumn full "S.T.C").getD 1 "") = .protoObj) :
    applyComment st full cm = .error typeErrorMsg := by
  simp only [applyComment, hlk]

theorem applyComment_eq_protoFn (st : PState) (full cm : String)
    (hlk : tableLookupGet st ((schemaTableColumn full "S.T.C").getD 1 "") = .protoFn) :
    applyComment st full cm = .error typeErrorMsg := by
  simp only [applyComment, hlk]

/-- When a comment step returns normally, the invariant is preserved
(and the lookup prototype is untouched). -/
theorem applyComment_ok_inv (st : PState) (full cm : String) (st' : PState)
    (h : StInv st) (hok : applyComment st full cm = .ok st') :
    StInv st' ∧ st'.lookupProto = st.lookupProto := by
  cases hlk : tableLookupGet st ((schemaTableColumn full "S.T.C").getD 1 "") with
  | tbl i =>
    rw [applyComment_eq_tbl st full cm i hlk] at hok
    cases hok
    exact ⟨StInv_updateTable st i _ (fun t => rfl) h, rfl⟩
  | protoObj =>
    rw [applyComment_eq_protoObj st full cm hlk] at hok
    cases hok
  | protoFn =>
    rw [applyComment_eq_protoFn st full cm hlk] at hok
    cases hok
  | commentsObj i =>
    cases hcm : lookupName (st.tables.getD i default).comments "comments" with
    | some s =>
      have heq : applyComment st full cm = .ok st := by
        simp only [applyComment, hlk, hcm]
      rw [heq] at hok
      cases hok
      exact ⟨h, rfl⟩
    | none =>
      have heq : applyComment st full cm = .error typeErrorMsg := by
        simp only [applyComment, hlk, hcm]
      rw [heq] at hok
      cases hok
  | fieldVal v =>
    cases htr : jsTruthy v with
    | true =>
      have heq : applyComment st full cm = .error typeErrorMsg := by
        simp only [applyComment, hlk, htr, eq_self_iff_true, if_true]
      rw [heq] at hok
      cases hok
    | false =>
      have heq : applyComment st full cm =
          .ok { st with warnings := st.warnings ++ [unknownTableWarning ((schemaTableColumn full "S.T.C").getD 1 "")] } := by
        simp only [applyComment, hlk, htr, Bool.false_eq_true, if_false]
      rw [heq] at hok
      cases hok
      exact ⟨⟨h.1, h.2.1, h.2.2.1, h.2.2.2.1, h.2.2.2.2⟩, rfl⟩
  | undef =>
    rw [applyComment_eq_undef st full cm hlk] at hok
    cases hok
    exact ⟨⟨h.1, h.2.1, h.2.2.1, h.2.2.2.1, h.2.2.2.2⟩, rfl⟩

theorem handleNone_cases (st : PState) (line : String) (alt : JVal)
    (h : StInv st) (hs : st.state = "NONE") :
    (∃ st', handleNone st line alt = .ok st' ∧ StInv st') ∨
    (∃ e, handleNone st line alt = .error e) := by
  cases hm1 : matchSchema line with
  | some nm =>
    have heq : handleNone st line alt = .ok { st with schemaName := nm } := by
      simp only [handleNone, hm1]
    exact Or.inl ⟨_, heq, ⟨h.1, h.2.1, h.2.2.1, h.2.2.2.1, h.2.2.2.2⟩⟩
  | none =>
  cases hm2 : matchSequence line with
  | some seqName =>
    have heq : handleNone st line alt = .ok { st with
        jsonResult := st.jsonResult ++ [Sum.inl (JVal.obj
          [("schema", JVal.str st.schemaName), ("type", JVal.str "sequence"),
           ("name", JVal.str ((schemaTableColumn seqName "S.T").getD 1 "")),
           ("altComment", alt)])] } := by
      simp only [handleNone, hm1, hm2]
    refine Or.inl ⟨_, heq, ⟨h.1, ?_, ?_, h.2.2.2.1, h.2.2.2.2⟩⟩
    · intro ht
      have ht' : st.state = "TABLE" := ht
      rw [hs] at ht'
      exact absurd ht' (by decide)
    · intro j hj
      have hj' : Sum.inr j ∈ st.jsonResult ++
          [Sum.inl (JVal.obj [("schema", JVal.str st.schemaName),
            ("type", JVal.str "sequence"),
            ("name", JVal.str ((schemaTableColumn seqName "S.T").getD 1 "")),
            ("altComment", alt)])] := hj
      rcases List.mem_append.mp hj' with hin | hin
      · exact h.2.2.1 j hin
      · simp at hin
  | none =>
  cases hm3 : matchTable line with
  | some fullTableName =>
    by_cases hpn : (schemaTableColumn fullTableName "S.T").getD 1 "" = "__proto__"
    · have heq : handleNone st line alt = .ok { st with
          tables := st.tables ++
            [{ schema := st.schemaName,
               name := (schemaTableColumn fullTableName "S.T").getD 1 "",
               columns := [], indexes := [], constraints := [],
               comments := [], altComment := alt }],
          lookupProto := some st.tables.length,
          currentTable := some st.tables.length,
          state := "TABLE" } := by
        simp only [handleNone, hm1, hm2, hm3, if_pos hpn]
      refine Or.inl ⟨_, heq, Or.inr rfl, ?_, ?_, ?_, h.2.2.2.2⟩
      · intro _
        refine ⟨st.tables.length, rfl, ?_, ?_⟩
        · show st.tables.length < (st.tables ++ [_]).length
          simp
        · intro hmem
          exact absurd (h.2.2.1 st.tables.length hmem) (Nat.lt_irrefl _)
      · intro j hj
        have := h.2.2.1 j hj
        show j < (st.tables ++ [_]).length
        simp only [List.length_append, List.length_singleton]
        exact Nat.lt_succ_of_lt this
      · intro n hn
        show lookupName st.tableLookup n = lastNamed (st.tables ++ [_]) n
        rw [lastNamed_append]
        show lookupName st.tableLookup n =
          (if (schemaTableColumn fullTableName "S.T").getD 1 "" = n
           then some st.tables.length else lastNamed st.tables n)
        rw [if_neg (show ¬ (schemaTableColumn fullTableName "S.T").getD 1 "" = n from
          fun hh => hn (hh ▸ hpn))]
        exact h.2.2.2.1 n hn
    · have heq : handleNone st line alt = .ok { st with
          tables := st.tables ++
            [{ schema := st.schemaName,
               name := (schemaTableColumn fullTableName "S.T").getD 1 "",
               columns := [], indexes := [], constraints := [],
               comments := [], altComment := alt }],
          tableLookup := objSet st.tableLookup
            ((schemaTableColumn fullTableName "S.T").getD 1 "") st.tables.length,
          currentTable := some st.tables.length,
          state := "TABLE" } := by
        simp only [handleNone, hm1, hm2, hm3, if_neg hpn]
      refine Or.inl ⟨_, heq, Or.inr rfl, ?_, ?_, ?_, ?_⟩
      · intro _
        refine ⟨st.tables.length, rfl, ?_, ?_⟩
        · show st.tables.length < (st.tables ++ [_]).length
          simp
        · intro hmem
          exact absurd (h.2.2.1 st.tables.length hmem) (Nat.lt_irrefl _)
      · intro j hj
        have := h.2.2.1 j hj
        show j < (st.tables ++ [_]).length
        simp only [List.length_append, List.length_singleton]
        exact Nat.lt_succ_of_lt this
      · intro n hn
        show lookupName (objSet st.tableLookup
            ((schemaTableColumn fullTableName "S.T").getD 1 "") st.tables.length) n =
          lastNamed (st.tables ++ [_]) n
        rw [lookupName_objSet, lastNamed_append]
        exact if_congr Iff.rfl rfl (h.2.2.2.1 n hn)
      · show lookupName (objSet st.tableLookup
            ((schemaTableColumn fullTableName "S.T").getD 1 "") st.tables.length)
          "__proto__" = none
        rw [lookupName_objSet, if_neg hpn]
        exact h.2.2.2.2
  | none =>
  cases hm4 : matchComment line with
  | some p =>
    obtain ⟨full, cm⟩ := p
    have heq : handleNone st line alt = applyComment st full (jsTrim cm) := by
      simp only [handleNone, hm1, hm2, hm3, hm4]
    rw [heq]
    cases hac : applyComment st full (jsTrim cm) with
    | ok st' =>
      exact Or.inl ⟨st', rfl, (applyComment_ok_inv st full (jsTrim cm) st' h hac).1⟩
    | error e => exact Or.inr ⟨e, rfl⟩
  | none =>
    have heq : handleNone st line alt = .ok st := by
      simp only [handleNone, hm1, hm2, hm3, hm4]
    exact Or.inl ⟨st, heq, ⟨h.1, h.2.1, h.2.2.1, h.2.2.2.1, h.2.2.2.2⟩⟩

theorem handleTable_cases (st : PState) (line : String) (alt : JVal)
    (h : StInv st) (hs : st.state = "TABLE") :
    (∃ st', handleTable st line alt = .ok st' ∧ StInv st') ∨
    (∃ e, handleTable st line alt = .error e) := by
  obtain ⟨i, hcur, hlt, hnotin⟩ := h.2.1 hs
  unfold handleTable
  cases hm1 : matchPrimaryKey line with
  | some p =>
    obtain ⟨nm, cols⟩ := p
    rw [hcur]
    exact Or.inl ⟨_, rfl, StInv_updateTable st i _ (fun t => rfl) h⟩
  | none =>
    cases hm2 : matchForeignKey line with
    | some p =>
      obtain ⟨nm, cols, rule⟩ := p
      rw [hcur]
      exact Or.inl ⟨_, rfl, StInv_updateTable st i _ (fun t => rfl) h⟩
    | none =>
      cases hm3 : matchIndex line with
      | some p =>
        obtain ⟨unique, nm, tbl⟩ := p
        rw [hcur]
        exact Or.inl ⟨_, rfl, StInv_updateTable st i _ (fun t => rfl) h⟩
      | none =>
        cases hm4 : matchComment line with
        | some p =>
          obtain ⟨full, cm⟩ := p
          cases hac : applyComment st full cm with
          | ok st' =>
            exact Or.inl ⟨st', hac, (applyComment_ok_inv st full cm st' h hac).1⟩
          | error e => exact Or.inr ⟨e, hac⟩
        | none =>
          by_cases hcl : jsStartsWith (jsTrim line) ");" = true
          · rw [hcur]
            simp only [hcl, if_true]
            refine Or.inl ⟨_, rfl, Or.inl rfl, ?_, ?_, h.2.2.2.1, h.2.2.2.2⟩
            · intro ht
              have ht' : ("NONE" : String) = "TABLE" := ht
              exact absurd ht' (by decide)
            · intro j hj
              have hj' : Sum.inr j ∈ st.jsonResult ++ [Sum.inr i] := hj
              rcases List.mem_append.mp hj' with hin | hin
              · exact h.2.2.1 j hin
              · have : j = i := by simpa using hin
                exact this ▸ hlt
          · simp only [Bool.not_eq_true] at hcl
            simp only [hcl, Bool.false_eq_true, if_false]
            cases hm5 : matchColumn line with
            | some p =>
              obtain ⟨nm, ty, dflt, nn⟩ := p
              rw [hcur]
              exact Or.inl ⟨_, rfl, StInv_updateTable st i _ (fun t => rfl) h⟩
            | none =>
              exact Or.inl ⟨st, rfl, ⟨h.1, h.2.1, h.2.2.1, h.2.2.2.1, h.2.2.2.2⟩⟩

theorem processLine_cases (st : PState) (l : String) (h : StInv st) :
    (∃ st', processLine st l = .ok st' ∧ StInv st') ∨
    (∃ e, processLine st l = .error e) := by
  unfold processLine
  cases hsp : (splitDashDash l.toList).map (fun p => jsTrim p.asString) with
  | nil => exact Or.inl ⟨st, rfl, h⟩
  | cons main rest =>
    by_cases hm : main = ""
    · simp only [hm, if_pos rfl]
      exact Or.inl ⟨st, rfl, h⟩
    · simp only [if_neg hm]
      cases rest with
      | nil =>
        rcases h.1 with hs | hs
        · rcases handleNone_cases st main JVal.undef h hs with ⟨st', hok, hinv⟩ | ⟨e, herr⟩
          · exact Or.inl ⟨st', by simp [processMain, hs, hok], hinv⟩
          · exact Or.inr ⟨e, by simp [processMain, hs, herr]⟩
        · rcases handleTable_cases st main JVal.undef h hs with ⟨st', hok, hinv⟩ | ⟨e, herr⟩
          · exact Or.inl ⟨st', by simp [processMain, hs, hok], hinv⟩
          · exact Or.inr ⟨e, by simp [processMain, hs, herr]⟩
      | cons a rest' =>
        rcases h.1 with hs | hs
        · rcases handleNone_cases st main (JVal.str a) h hs with ⟨st', hok, hinv⟩ | ⟨e, herr⟩
          · exact Or.inl ⟨st', by simp [processMain, hs, hok], hinv⟩
          · exact Or.inr ⟨e, by simp [processMain, hs, herr]⟩
        · rcases handleTable_cases st main (JVal.str a) h hs with ⟨st', hok, hinv⟩ | ⟨e, herr⟩
          · exact Or.inl ⟨st', by simp [processMain, hs, hok], hinv⟩
          · exact Or.inr ⟨e, by simp [processMain, hs, herr]⟩

theorem foldlM_processLine_inv : ∀ (lines : List String) (st0 : PState), StInv st0 →
    ∀ st, List.foldlM processLine st0 lines = .ok st → StInv st
  | [], st0, h, st, hfold => by
      rw [List.foldlM_nil] at hfold
      cases hfold
      exact h
  | l :: rest, st0, h, st, hfold => by
      rw [List.foldlM_cons] at hfold
      rcases processLine_cases st0 l h with ⟨st1, hok, hinv1⟩ | ⟨e, herr⟩
      · rw [hok] at hfold
        have hfold' : List.foldlM processLine st1 rest = .ok st := hfold
        exact foldlM_processLine_inv rest st1 hinv1 st hfold'
      · rw [herr] at hfold
        have hcontra : (Except.error e : Except String PState) = .ok st := hfold
        cases hcontra

/-- C10: a table opened by a CREATE TABLE line but never closed by a
later `);` line is omitted from the parse result — when a run ends still
in the TABLE state, its current table reference was never pushed to
`jsonResult`, so no record for it (nor its accumulated columns,
constraints, indexes or comments) appears in the returned list. -/
theorem unterminated_table_omitted (s : String) (st : PState) (i : Nat)
    (hrun : parseDDLstate s = .ok st) (hstate : st.state = "TABLE")
    (hcur : st.currentTable = some i) : Sum.inr i ∉ st.jsonResult := by
  have hrun' : List.foldlM processLine initState
      ((splitOnChar '\n' s.toList).map List.asString) = .ok st := hrun
  have hinv := foldlM_processLine_inv _ initState StInv_init st hrun'
  obtain ⟨j, hc, hjl, hnotin⟩ := hinv.2.1 hstate
  rw [hcur] at hc
  cases hc
  exact hnotin

/-- Witness for `unterminated_table_omitted`: the one-line input
`CREATE TABLE s.t (` ends in the TABLE state with current table 0 and an
empty result list. -/
theorem unterminated_table_omitted_witness :
    Sum.inr 0 ∉ (PState.mk "TABLE" "" (some 0)
      [PTable.mk "" "t" [] [] [] [] JVal.undef] [] [("t", 0)] none []).jsonResult :=
  unterminated_table_omitted "CREATE TABLE s.t (" _ 0 rfl rfl rfl

theorem litCI_cons_some (p : Char) (ps : List Char) (cs : List Char) (r : List Char)
    (h : litCI (p :: ps) cs = some r) :
    ∃ c cs', cs = c :: cs' ∧ c.toLower = p.toLower ∧ litCI ps cs' = some r := by
  cases cs with
  | nil => simp [litCI] at h
  | cons c cs' =>
    by_cases hc : c.toLower = p.toLower
    · simp only [litCI, if_pos hc] at h
      exact ⟨c, cs', rfl, hc, h⟩
    · simp only [litCI, if_neg hc] at h
      cases h

theorem litCI_none_two (p0 p1 : Char) (ps : List Char) (c0 c1 : Char) (cs : List Char)
    (h0 : c0.toLower = p0.toLower) (h1 : ¬ c1.toLower = p1.toLower) :
    litCI (p0 :: p1 :: ps) (c0 :: c1 :: cs) = none := by
  simp only [litCI, if_pos h0, if_neg h1]

theorem litCI_none_three (p0 p1 p2 : Char) (ps : List Char) (c0 c1 c2 : Char) (cs : List Char)
    (h0 : c0.toLower = p0.toLower) (h1 : c1.toLower = p1.toLower)
    (h2 : ¬ c2.toLower = p2.toLower) :
    litCI (p0 :: p1 :: p2 :: ps) (c0 :: c1 :: c2 :: cs) = none := by
  simp only [litCI, if_pos h0, if_pos h1, if_neg h2]

/-- A line that matches `commentRegex` starts (after the whitespace
anchor) with the letters C, O, M case-insensitively. -/
theorem matchComment_head (line : String) (p : String × String)
    (h : matchComment line = some p) :
    ∃ c0 c1 c2 cs', skipWs line.toList = c0 :: c1 :: c2 :: cs' ∧
      c0.toLower = 'c' ∧ c1.toLower = 'o' ∧ c2.toLower = 'm' := by
  cases hl : litCI ['C', 'O', 'M', 'M', 'E', 'N', 'T'] (skipWs line.data) with
  | none => simp [matchComment, hl] at h
  | some r1 =>
    have hl' : litCI ('C' :: 'O' :: 'M' :: "MENT".toList) (skipWs line.toList) = some r1 := hl
    obtain ⟨c0, cs0, he0, hc0, h0⟩ := litCI_cons_some 'C' _ _ _ hl'
    obtain ⟨c1, cs1, he1, hc1, h1⟩ := litCI_cons_some 'O' _ _ _ h0
    obtain ⟨c2, cs2, he2, hc2, h2⟩ := litCI_cons_some 'M' _ _ _ h1
    rw [he1, he2] at he0
    refine ⟨c0, c1, c2, cs2, he0, ?_, ?_, ?_⟩
    · rw [hc0]
      decide
    · rw [hc1]
      decide
    · rw [hc2]
      decide

/-- A comment line cannot begin with `CREATE` (the R clashes with the O). -/
theorem create_none_of_comment (line : String) (p : String × String)
    (h : matchComment line = some p) :
    litCI "CREATE".toList (skipWs line.toList) = none := by
  obtain ⟨c0, c1, c2, cs', he, h0, h1, h2⟩ := matchComment_head line p h
  rw [he, show "CREATE".toList = 'C' :: 'R' :: "EATE".toList from rfl]
  exact litCI_none_two 'C' 'R' "EATE".toList c0 c1 (c2 :: cs')
    (by rw [h0]; decide) (by rw [h1]; decide)

/-- A comment line cannot begin with `CONSTRAINT` (the N clashes with the M). -/
theorem constraint_none_of_comment (line : String) (p : String × String)
    (h : matchComment line = some p) :
    litCI "CONSTRAINT".toList (skipWs line.toList) = none := by
  obtain ⟨c0, c1, c2, cs', he, h0, h1, h2⟩ := matchComment_head line p h
  rw [he, show "CONSTRAINT".toList = 'C' :: 'O' :: 'N' :: "STRAINT".toList from rfl]
  exact litCI_none_three 'C' 'O' 'N' _ c0 c1 c2 cs'
    (by rw [h0]; decide) (by rw [h1]; decide) (by rw [h2]; decide)

theorem matchSchema_none (line : String)
    (h : litCI "CREATE".toList (skipWs line.toList) = none) : matchSchema line = none := by
  have h' : litCI ['C', 'R', 'E', 'A', 'T', 'E'] (skipWs line.data) = none := h
  simp [matchSchema, h']

theorem matchSequence_none (line : String)
    (h : litCI "CREATE".toList (skipWs line.toList) = none) : matchSequence line = none := by
  have h' : litCI ['C', 'R', 'E', 'A', 'T', 'E'] (skipWs line.data) = none := h
  simp [matchSequence, h']

theorem matchTable_none (line : String)
    (h : litCI "CREATE".toList (skipWs line.toList) = none) : matchTable line = none := by
  have h' : litCI ['C', 'R', 'E', 'A', 'T', 'E'] (skipWs line.data) = none := h
  simp [matchTable, h']

theorem matchIndex_none (line : String)
    (h : litCI "CREATE".toList (skipWs line.toList) = none) : matchIndex line = none := by
  have h' : litCI ['C', 'R', 'E', 'A', 'T', 'E'] (skipWs line.data) = none := h
  simp [matchIndex, h']

theorem matchPrimaryKey_none (line : String)
    (h : litCI "CONSTRAINT".toList (skipWs line.toList) = none) :
    matchPrimaryKey line = none := by
  have h' : litCI ['C', 'O', 'N', 'S', 'T', 'R', 'A', 'I', 'N', 'T'] (skipWs line.data) = none := h
  simp [matchPrimaryKey, h']

theorem matchForeignKey_none (line : String)
    (h : litCI "CONSTRAINT".toList (skipWs line.toList) = none) :
    matchForeignKey line = none := by
  have h' : litCI ['C', 'O', 'N', 'S', 'T', 'R', 'A', 'I', 'N', 'T'] (skipWs line.data) = none := h
  simp [matchForeignKey, h']

/-- From a false boolean disjunction, the left disjunct is false. -/
theorem or_false_left {a b : Bool} (h : (a || b) = false) : a = false := by
  cases a
  · rfl
  · exact Bool.noConfusion h

/-- From a false boolean disjunction, the right disjunct is false. -/
theorem or_false_right {a b : Bool} (h : (a || b) = false) : b = false := by
  cases a
  · exact h
  · exact Bool.noConfusion h

/-- A true boolean disjunction has a true disjunct. -/
theorem or_true_cases {a b : Bool} (h : (a || b) = true) : a = true ∨ b = true := by
  cases a
  · exact Or.inr h
  · exact Or.inl rfl

/-- Membership in the risk-key list splits into the `__proto__` test and
membership in the inherited-function list. -/
theorem contains_risk_iff (k : String) :
    protoRiskKeys.contains k = ((k == "__proto__") || protoFnKeys.contains k) := rfl

/-- Full case analysis of the comment-application step under the lookup
invariant, when the prototype of `tableLookup` is the unpolluted
`Object.prototype`: a registered (own-property) table name receives the
comment in the most recent table of that name; an unregistered name
outside the risk keys only appends the warning; an unregistered name
that is an inherited `Object.prototype` member throws the TypeError. -/
theorem applyComment_resolution (st : PState) (full cmv : String)
    (hproto : st.lookupProto = none)
    (hlk : ∀ n, ¬ n = "__proto__" → lookupName st.tableLookup n = lastNamed st.tables n)
    (hpnone : lookupName st.tableLookup "__proto__" = none) :
    (∃ i, lastNamed st.tables ((schemaTableColumn full "S.T.C").getD 1 "") = some i ∧
      applyComment st full cmv = .ok (updateTable st i (fun t =>
        { t with comments := commentsSet t.comments ((schemaTableColumn full "S.T.C").getD 2 "") cmv }))) ∨
    (lastNamed st.tables ((schemaTableColumn full "S.T.C").getD 1 "") = none ∧
      protoRiskKeys.contains ((schemaTableColumn full "S.T.C").getD 1 "") = false ∧
      applyComment st full cmv = .ok { st with
        warnings := st.warnings ++ [unknownTableWarning ((schemaTableColumn full "S.T.C").getD 1 "")] }) ∨
    (lookupName st.tableLookup ((schemaTableColumn full "S.T.C").getD 1 "") = none ∧
      protoRiskKeys.contains ((schemaTableColumn full "S.T.C").getD 1 "") = true ∧
      applyComment st full cmv = .error typeErrorMsg) := by
  cases hfound : lookupName st.tableLookup ((schemaTableColumn full "S.T.C").getD 1 "") with
  | some i =>
    left
    have hne : ¬ (schemaTableColumn full "S.T.C").getD 1 "" = "__proto__" := by
      intro hh
      rw [hh, hpnone] at hfound
      cases hfound
    refine ⟨i, ?_, ?_⟩
    · rw [← hlk _ hne]
      exact hfound
    · have hget : tableLookupGet st ((schemaTableColumn full "S.T.C").getD 1 "") = .tbl i := by
        simp only [tableLookupGet, hfound]
      exact applyComment_eq_tbl st full cmv i hget
  | none =>
    cases hrisk : protoRiskKeys.contains ((schemaTableColumn full "S.T.C").getD 1 "") with
    | false =>
      right; left
      have hrisk' := hrisk
      rw [contains_risk_iff] at hrisk'
      have hb := or_false_left hrisk'
      have hfn := or_false_right hrisk'
      have hne : ¬ (schemaTableColumn full "S.T.C").getD 1 "" = "__proto__" := by
        intro hh
        rw [hh] at hb
        exact absurd hb (by decide)
      refine ⟨?_, rfl, ?_⟩
      · rw [← hlk _ hne]
        exact hfound
      · have hget : tableLookupGet st ((schemaTableColumn full "S.T.C").getD 1 "") = .undef := by
          simp only [tableLookupGet, hfound, hproto, if_neg hne, hfn, Bool.false_eq_true,
            if_false]
        exact applyComment_eq_undef st full cmv hget
    | true =>
      right; right
      refine ⟨rfl, rfl, ?_⟩
      have hrisk' := hrisk
      rw [contains_risk_iff] at hrisk'
      by_cases hbp : (schemaTableColumn full "S.T.C").getD 1 "" = "__proto__"
      · have hget : tableLookupGet st ((schemaTableColumn full "S.T.C").getD 1 "") = .protoObj := by
          rw [hbp] at hfound ⊢
          simp only [tableLookupGet, hfound, hproto, eq_self_iff_true, if_true]
        exact applyComment_eq_protoObj st full cmv hget
      · rcases or_true_cases hrisk' with hb | hfn
        · exact absurd (eq_of_beq hb) hbp
        · have hget : tableLookupGet st ((schemaTableColumn full "S.T.C").getD 1 "") = .protoFn := by
            simp only [tableLookupGet, hfound, hproto, if_neg hbp, hfn, eq_self_iff_true,
              if_true]
          exact applyComment_eq_protoFn st full cmv hget

/-- Counterexample to the original C9 claim that an unresolvable comment
reference is never fatal: the unregistered table name `toString` is
found on the prototype chain of the lookup object (the inherited
`Object.prototype.toString` function is truthy), so the dispatcher
throws the TypeError instead of warning. -/
theorem comment_protoName_cex :
    processMain initState "COMMENT ON COLUMN a.toString.c IS \x27x\x27" JVal.undef =
      Except.error typeErrorMsg := rfl

/-- C9 (amended): for a COMMENT ON COLUMN statement line reaching the
dispatcher in either state — with an unpolluted lookup object (no
`__proto__` table was ever created, stated as `hproto` and `hpnone`) and
`tableLookup` holding the registration invariant for ordinary names
(`hlk`) — exactly one of three things happens: when a table of the
referenced name has been registered, the step succeeds and the comment
is stored (via the prototype-filtering comment setter) in the comments
map of the MOST RECENTLY created table of that name; when no such table
exists and the name is not an `Object.prototype` member, the step
succeeds, only a warning diagnostic is appended and no table is
touched; but when the unregistered name IS an inherited
`Object.prototype` member (`toString`, `constructor`, `__proto__`, …),
the lookup hits the prototype chain, the truthy inherited value passes
the `if (table)` test, and the step is FATAL with a TypeError — refuting
the original "never fatal" reading. -/
theorem comment_resolution (st : PState) (line : String) (alt : JVal) (full cm : String)
    (hstate : st.state = "NONE" ∨ st.state = "TABLE")
    (hproto : st.lookupProto = none)
    (hlk : ∀ n, ¬ n = "__proto__" → lookupName st.tableLookup n = lastNamed st.tables n)
    (hpnone : lookupName st.tableLookup "__proto__" = none)
    (hm : matchComment line = some (full, cm)) :
    (∃ i, lastNamed st.tables ((schemaTableColumn full "S.T.C").getD 1 "") = some i ∧
      processMain st line alt = .ok (updateTable st i (fun t =>
        { t with comments := commentsSet t.comments ((schemaTableColumn full "S.T.C").getD 2 "")
                               (if st.state = "NONE" then jsTrim cm else cm) }))) ∨
    (lastNamed st.tables ((schemaTableColumn full "S.T.C").getD 1 "") = none ∧
      protoRiskKeys.contains ((schemaTableColumn full "S.T.C").getD 1 "") = false ∧
      processMain st line alt = .ok { st with
        warnings := st.warnings ++ [unknownTableWarning ((schemaTableColumn full "S.T.C").getD 1 "")] }) ∨
    (lookupName st.tableLookup ((schemaTableColumn full "S.T.C").getD 1 "") = none ∧
      protoRiskKeys.contains ((schemaTableColumn full "S.T.C").getD 1 "") = true ∧
      processMain st line alt = .error typeErrorMsg) := by
  have hcre := create_none_of_comment line (full, cm) hm
  have hcon := constraint_none_of_comment line (full, cm) hm
  rcases hstate with hs | hs
  · have hred : processMain st line alt = applyComment st full (jsTrim cm) := by
      simp only [processMain, hs, eq_self_iff_true, if_true, handleNone,
        matchSchema_none line hcre, matchSequence_none line hcre,
        matchTable_none line hcre, hm]
    rw [hred, if_pos hs]
    exact applyComment_resolution st full (jsTrim cm) hproto hlk hpnone
  · have hsn : ¬ st.state = "NONE" := by
      rw [hs]
      decide
    have hred : processMain st line alt = applyComment st full cm := by
      simp only [processMain, if_neg hsn, hs, eq_self_iff_true, if_true,
        if_neg (show ¬ ("TABLE" : String) = "NONE" by decide), handleTable,
        matchPrimaryKey_none line hcon, matchForeignKey_none line hcon,
        matchIndex_none line hcre, hm]
    rw [hred, if_neg hsn]
    exact applyComment_resolution st full cm hproto hlk hpnone

/-- Witness for `comment_resolution`: a comment naming the unregistered
non-risk table `person` in the initial state appends the warning and
touches nothing. -/
theorem comment_resolution_witness :
    processMain initState "COMMENT ON COLUMN s.person.c IS \x27hi\x27" JVal.undef =
      Except.ok { initState with warnings := [unknownTableWarning "person"] } := by
  rcases comment_resolution initState "COMMENT ON COLUMN s.person.c IS \x27hi\x27"
      JVal.undef "s.person.c" "hi" (Or.inl rfl) rfl (fun n _ => rfl) rfl rfl with
    ⟨i, hfound, hok⟩ | ⟨hmiss, hnorisk, hok⟩ | ⟨hmiss, hrisk, hok⟩
  · have hfound' : (none : Option Nat) = some i := hfound
    cases hfound'
  · exact hok
  · have hc : protoRiskKeys.contains
        ((schemaTableColumn "s.person.c" "S.T.C").getD 1 "") = false := by decide
    rw [hrisk] at hc
    cases hc

